import Mathlib

/-!
Verification development for the interactive Python execution engine in
`pycoterm.py` (class `PythonExecutor`, class `TerminalWidget`).

The engine is embedded shallowly.  Python object values are modelled by
identity tokens (`PyObj`); the Python value `None` is `Option.none`.  The
behaviour of the arbitrary user code handed to `compile`/`eval`/`exec`, of
`sys.displayhook` and of `sys.excepthook` is supplied as data (a
`TurnBehavior` oracle record describing what each call prints, binds and
returns or raises); the engine's own control flow — classification of the
fragment, hook dispatch, stream capture, the `_` bookkeeping, the
`finally` restoration — is translated from the source line by line.
-/

namespace Pycoterm

/-- A non-None Python object, identified up to the `is` identity relation.
`sentinel` stands for a fresh `object()` allocated by the engine at
`old_underscore = getattr(builtins, '_', object())` (pycoterm.py line 188):
it is distinct from every object user code can mention. -/
inductive PyObj
  | obj (id : Nat)
  | sentinel
deriving DecidableEq, Repr

/-- A Python value: `none` is the Python `None` singleton. -/
abbrev PyVal := Option PyObj

/-- An attribute slot such as `builtins._`: `none` means the attribute is
absent (so `getattr(builtins, '_', object())` yields a fresh sentinel). -/
abbrev Attr := Option PyVal

/-- The mutable string-keyed mapping used for `globals_dict` / `locals_dict`. -/
abbrev Dict := List (String × PyVal)

/-- Python dict assignment `d[k] = v`: overwrite in place, else append. -/
def dictSet (d : Dict) (k : String) (v : PyVal) : Dict :=
  match d with
  | [] => [(k, v)]
  | (k', v') :: rest => if k' = k then (k, v) :: rest else (k', v') :: dictSet rest k v

/-- Python dict lookup `d.get(k)`. -/
def dictGet? (d : Dict) (k : String) : Option PyVal :=
  match d with
  | [] => none
  | (k', v') :: rest => if k' = k then some v' else dictGet? rest k

/-- Python dict key iteration `for name in d`. -/
def dictKeys (d : Dict) : List String := d.map (·.1)

/-- Apply a sequence of assignments produced by running a piece of code. -/
def applyBinds (d : Dict) (bs : List (String × PyVal)) : Dict :=
  bs.foldl (fun acc kv => dictSet acc kv.1 kv.2) d

/-- The process-wide stream and input handles saved and restored by
`PythonExecutor.run` (pycoterm.py lines 123-125, 169, 255-259): the objects
bound to `sys.stdout`, `sys.stderr`, `sys.stdin` and `builtins.input`,
identified by identity tokens. -/
structure SysState where
  stdoutH : Nat
  stderrH : Nat
  stdinH : Nat
  inputFn : Nat
deriving DecidableEq, Repr

/-- Process-wide state shared by every `PythonExecutor` instance: the
`builtins._` attribute and the stream handles. -/
structure ProcState where
  under : Attr
  sys : SysState
deriving DecidableEq, Repr

/-- Per-executor session state: `self.globals_dict` and `self.locals_dict`. -/
structure SessionState where
  globals : Dict
  locals : Dict
deriving DecidableEq, Repr

/-- Classification of a raised Python exception, as far as the `except`
clauses of `PythonExecutor.run` can distinguish it: a `SyntaxError`
instance, a `KeyboardInterrupt`, or any other `Exception` subclass. -/
inductive PyExc
  | syntaxError (excName excMsg : String)
  | keyboardInterrupt
  | other (excName excMsg : String)
deriving DecidableEq, Repr

/-- The `type(e).__name__` of an exception. -/
def PyExc.name : PyExc → String
  | .syntaxError n _ => n
  | .keyboardInterrupt => "KeyboardInterrupt"
  | .other n _ => n

/-- The `str(e)` of an exception. -/
def PyExc.msg : PyExc → String
  | .syntaxError _ m => m
  | .keyboardInterrupt => ""
  | .other _ m => m

/-- Decidable equality for `Except`, needed to evaluate the embedding on
concrete inputs. -/
instance {ε α : Type} [DecidableEq ε] [DecidableEq α] : DecidableEq (Except ε α) := fun a b =>
  match a, b with
  | .ok x, .ok y =>
    if h : x = y then isTrue (by rw [h]) else isFalse (fun hh => h (by cases hh; rfl))
  | .error x, .error y =>
    if h : x = y then isTrue (by rw [h]) else isFalse (fun hh => h (by cases hh; rfl))
  | .ok _, .error _ => isFalse (fun hh => by cases hh)
  | .error _, .ok _ => isFalse (fun hh => by cases hh)

/-- Observable behaviour of one `compile`+`eval` / `compile`+`exec` call on
the submitted fragment: text it writes to the captured streams, names it
binds in the globals mapping (via `global` declarations or direct
manipulation) and in the locals mapping (ordinary top-level assignment —
`eval`/`exec` are invoked with the separate `self.locals_dict` as locals,
pycoterm.py lines 182 and 209, so plain assignments land there), and its
result: a value or a raised exception. -/
structure CallOut where
  out : String
  err : String
  globalBinds : List (String × PyVal)
  localBinds : List (String × PyVal)
  res : Except PyExc PyVal
deriving DecidableEq, Repr

/-- Observable behaviour of one invocation of `sys.excepthook`. -/
structure HookRun where
  out : String
  err : String
  res : Except PyExc PyVal
deriving DecidableEq, Repr

/-- Observable behaviour of one invocation of `sys.displayhook`:
additionally records the state of `builtins._` after the call. -/
structure DisplayRun extends HookRun where
  underAfter : Attr
deriving DecidableEq, Repr

/-- Oracle describing what the Python runtime does for one submitted
fragment in the current environment: whether `compile(code, '<input>',
'eval')` succeeds, what evaluating / executing the fragment does, whether
`sys.displayhook` / `sys.excepthook` exist and are callable, and what each
hook invocation does.  `excepthookRun1` is the first (inner) invocation of
`sys.excepthook` in the turn, `excepthookRun2` the second (outer,
reached only when the first invocation itself raised). -/
structure TurnBehavior where
  exprCompiles : Bool
  evalRun : CallOut
  hasDisplayHook : Bool
  displayRun : DisplayRun
  reprResult : String
  execRun : CallOut
  hasExceptHook : Bool
  excepthookRun1 : HookRun
  excepthookRun2 : HookRun
deriving DecidableEq, Repr

/-- Qt signals emitted by `PythonExecutor`. -/
inductive Ev
  | outputReady (s : String)
  | inputRequested (prompt : String)
  | execFinished (out : String) (isError : Bool)
deriving DecidableEq, Repr

/-- Trace entries recording which of the classified actions of
`PythonExecutor.run` actually ran during a turn. -/
inductive Act
  | evalExpr
  | execStmts
  | displayHook
  | exceptHook
  | printRepr
deriving DecidableEq, Repr

/-- In-flight turn context: the two capture buffers (`stdout_capture`,
`stderr_capture`), the two dicts, `builtins._`, and the action trace. -/
structure Ctx where
  outBuf : String
  errBuf : String
  g : Dict
  l : Dict
  bu : Attr
  tr : List Act
deriving DecidableEq, Repr

/-- Result of the inner `try` of `PythonExecutor.run` (lines 180-235):
either it finished normally with the current `result_value` and
`exception_occurred` flag, or it let an exception propagate to the outer
`except` clauses (lines 237-253). -/
inductive InnerRes
  | normal (rv : PyVal) (eo : Bool)
  | toOuter (e : PyExc)
deriving DecidableEq, Repr

/-- Run a user-code call against the context (stream capture accumulation,
dict mutation, trace entry), returning the call's result. -/
def doCall (cx : Ctx) (c : CallOut) (a : Act) : Ctx × Except PyExc PyVal :=
  ({ cx with
      outBuf := cx.outBuf ++ c.out
      errBuf := cx.errBuf ++ c.err
      g := applyBinds cx.g c.globalBinds
      l := applyBinds cx.l c.localBinds
      tr := cx.tr ++ [a] }, c.res)

/-- Run one `sys.excepthook` invocation against the context. -/
def doHookCall (cx : Ctx) (h : HookRun) : Ctx × Except PyExc PyVal :=
  ({ cx with
      outBuf := cx.outBuf ++ h.out
      errBuf := cx.errBuf ++ h.err
      tr := cx.tr ++ [Act.exceptHook] }, h.res)

/-- The engine's detection of whether the display hook updated `builtins._`
(pycoterm.py lines 188-194): `old_underscore` and `new_underscore` are read
with `getattr(builtins, '_', object())`, so whenever the attribute is
absent on either side the comparison sees a freshly allocated sentinel and
`new_underscore is not old_underscore` is necessarily true; when both reads
find the attribute, identity of the held objects decides. -/
def underscoreChanged (before after : Attr) : Bool :=
  match before, after with
  | some a, some b => !(a = b : Bool)
  | _, _ => true

/-- Lines 183-204 of pycoterm.py: the display step for a non-None
expression result `v`.  With a display hook: run the hook, compare
`builtins._` around the call, and either adopt the hook's `_` update
(storing the post-hook attribute value — a fresh sentinel object when the
attribute is absent — into `globals_dict['_']` and clearing
`result_value`), or take `result_value` to be the hook's return value if
non-None else `v`.  Without a hook: `print(repr(result))`. -/
def displayStep (beh : TurnBehavior) (cx : Ctx) (v : PyObj) : Ctx × Except PyExc PyVal :=
  if beh.hasDisplayHook then
    let oldU := cx.bu
    let cx1 := { cx with
      outBuf := cx.outBuf ++ beh.displayRun.out
      errBuf := cx.errBuf ++ beh.displayRun.err
      bu := beh.displayRun.underAfter
      tr := cx.tr ++ [Act.displayHook] }
    match beh.displayRun.res with
    | .error e => (cx1, .error e)
    | .ok dres =>
      if underscoreChanged oldU cx1.bu then
        let stored : PyVal :=
          match cx1.bu with
          | some w => w
          | none => some PyObj.sentinel
        ({ cx1 with g := dictSet cx1.g "_" stored }, .ok none)
      else
        (cx1, .ok (match dres with | some d => some d | none => some v))
  else
    ({ cx with
        outBuf := cx.outBuf ++ beh.reprResult ++ "\n"
        tr := cx.tr ++ [Act.printRepr] }, .ok (some v))

/-- The inner `except Exception` handling shared by lines 212-222 and
225-235: call `sys.excepthook` when present (an exception raised by the
hook itself propagates to the outer clauses), else write
`f"{type(e).__name__}: {e}\n"` to the stderr capture; a non-None hook
return value becomes `result_value` and clears `exception_occurred`. -/
def innerExcept (beh : TurnBehavior) (cx : Ctx) (e : PyExc) : Ctx × InnerRes :=
  let (cx1, hres) :=
    if beh.hasExceptHook then doHookCall cx beh.excepthookRun1
    else ({ cx with errBuf := cx.errBuf ++ e.name ++ ": " ++ e.msg ++ "\n" }, .ok none)
  match hres with
  | .error he => (cx1, .toOuter he)
  | .ok (some x) => (cx1, .normal (some x) false)
  | .ok none => (cx1, .normal none true)

/-- Lines 206-222 of pycoterm.py: the statement-sequence branch entered by
the inner `except SyntaxError` clause — `compile(self.code, '<input>',
'exec')` and `exec` it (one oracle call: a compile failure is an exception
with no side effects), re-raising `KeyboardInterrupt` and routing every
other exception (including a `SyntaxError` from the statement compile) to
the inner exception handling. -/
def stmtBranch (beh : TurnBehavior) (cx : Ctx) : Ctx × InnerRes :=
  let (cx1, r) := doCall cx beh.execRun Act.execStmts
  match r with
  | .ok _ => (cx1, .normal none false)
  | .error .keyboardInterrupt => (cx1, .toOuter .keyboardInterrupt)
  | .error e => innerExcept beh cx1 e

/-- Lines 179-235 of pycoterm.py: try to compile the fragment as an
expression; on success evaluate it and display a non-None result.  The
`except SyntaxError` clause at line 205 covers the whole block, so a
`SyntaxError` raised by `compile`, by the evaluation itself, or by the
display hook all fall into the statement-sequence branch;
`KeyboardInterrupt` is re-raised to the outer clauses; any other exception
goes to the inner exception handling. -/
def exprBranch (beh : TurnBehavior) (cx : Ctx) : Ctx × InnerRes :=
  if beh.exprCompiles then
    let (cx1, r) := doCall cx beh.evalRun Act.evalExpr
    match r with
    | .ok none => (cx1, .normal none false)
    | .ok (some v) =>
      let (cx2, dr) := displayStep beh cx1 v
      match dr with
      | .ok rv => (cx2, .normal rv false)
      | .error (.syntaxError _ _) => stmtBranch beh cx2
      | .error .keyboardInterrupt => (cx2, .toOuter .keyboardInterrupt)
      | .error e => innerExcept beh cx2 e
    | .error (.syntaxError _ _) => stmtBranch beh cx1
    | .error .keyboardInterrupt => (cx1, .toOuter .keyboardInterrupt)
    | .error e => innerExcept beh cx1 e
  else stmtBranch beh cx

/-- Result of one `PythonExecutor.run` invocation: the emitted signals, the
session and process state on exit, the action trace, and whether an
exception escaped `run` entirely (second `sys.excepthook` invocation
raising — no terminal signal is emitted then). -/
structure RunResult where
  events : List Ev
  session : SessionState
  proc : ProcState
  trace : List Act
  escaped : Bool
deriving DecidableEq, Repr

/-- Python `self.code.strip()`: drop leading and trailing whitespace,
character by character. -/
def pyStrip (s : String) : String :=
  String.mk (((s.data.dropWhile Char.isWhitespace).reverse.dropWhile Char.isWhitespace).reverse)

/-- Lines 261-282 of pycoterm.py: combine the captured streams into the
terminal event (`stderr` alone when `stdout` is empty, otherwise
`stdout`, newline, `stderr`; the error flag is the truthiness of the
stderr capture), apply the final `_` update when no exception occurred and
`result_value` is non-None (both `globals_dict['_']` and `builtins._`),
and emit `execution_finished`. -/
def finishTurn (cx : Ctx) (rv : PyVal) (eo : Bool) (restoredSys : SysState) : RunResult :=
  let output :=
    if cx.errBuf = "" then cx.outBuf
    else if cx.outBuf = "" then cx.errBuf
    else cx.outBuf ++ "\n" ++ cx.errBuf
  let isError := if cx.errBuf = "" then false else true
  match eo, rv with
  | false, some r =>
    { events := [Ev.execFinished output isError]
      session := { globals := dictSet cx.g "_" (some r), locals := cx.l }
      proc := { under := some (some r), sys := restoredSys }
      trace := cx.tr
      escaped := false }
  | _, _ =>
    { events := [Ev.execFinished output isError]
      session := { globals := cx.g, locals := cx.l }
      proc := { under := cx.bu, sys := restoredSys }
      trace := cx.tr
      escaped := false }

/-- The outer `except Exception` handler, lines 243-253: call
`sys.excepthook` (second invocation slot) when present, else write
`f"Execution error: {e}\n"` to the stderr capture. -/
def outerExcept (beh : TurnBehavior) (cx : Ctx) (e : PyExc) : Ctx × Except PyExc PyVal :=
  if beh.hasExceptHook then doHookCall cx beh.excepthookRun2
  else ({ cx with errBuf := cx.errBuf ++ "Execution error: " ++ e.msg ++ "\n" }, .ok none)

/-- Lines 237-253 of pycoterm.py: the outer `except` clauses.
`KeyboardInterrupt` emits the fixed `("^C\nKeyboardInterrupt", True)` event
and returns at once; any other exception goes through the outer exception
handling and then the normal completion tail; an exception raised by the
outer hook itself escapes `run` without a terminal event.  Every path
carries the restored stream handles from the `finally` block. -/
def outerDispatch (beh : TurnBehavior) (cx : Ctx) (ir : InnerRes)
    (restoredSys : SysState) : RunResult :=
  match ir with
  | .toOuter .keyboardInterrupt =>
    { events := [Ev.execFinished "^C\nKeyboardInterrupt" true]
      session := { globals := cx.g, locals := cx.l }
      proc := { under := cx.bu, sys := restoredSys }
      trace := cx.tr
      escaped := false }
  | .toOuter e =>
    let cx2 := (outerExcept beh cx e).1
    match (outerExcept beh cx e).2 with
    | .error _ =>
      { events := []
        session := { globals := cx2.g, locals := cx2.l }
        proc := { under := cx2.bu, sys := restoredSys }
        trace := cx2.tr
        escaped := true }
    | .ok (some x) => finishTurn cx2 (some x) false restoredSys
    | .ok none => finishTurn cx2 none true restoredSys
  | .normal rv eo => finishTurn cx rv eo restoredSys

/-- The turn-start context: fresh empty capture buffers (`io.StringIO()`),
the executor's two dicts and the current `builtins._`, empty trace. -/
def ctx0 (s : SessionState) (p : ProcState) : Ctx :=
  { outBuf := "", errBuf := "", g := s.globals, l := s.locals, bu := p.under, tr := [] }

/-- `PythonExecutor.run` (pycoterm.py lines 113-282).  Empty or
whitespace-only code finishes immediately with `("", False)` and touches
nothing.  Otherwise the stream handles are saved, `sys.stdout`/`sys.stderr`
are redirected into the capture buffers and `builtins.input` is replaced,
the fragment is classified and executed by the inner `try`, the outer
clauses dispatch its outcome, and the `finally` block restores all four
saved handles on every exit path. -/
def run (code : String) (beh : TurnBehavior) (s : SessionState) (p : ProcState) : RunResult :=
  if pyStrip code = "" then
    { events := [Ev.execFinished "" false], session := s, proc := p, trace := [], escaped := false }
  else
    let oldStdout := p.sys.stdoutH
    let oldStderr := p.sys.stderrH
    let oldStdin := p.sys.stdinH
    let oldInput := p.sys.inputFn
    let cxir := exprBranch beh (ctx0 s p)
    let restoredSys : SysState :=
      { stdoutH := oldStdout, stderrH := oldStderr, stdinH := oldStdin, inputFn := oldInput }
    outerDispatch beh cxir.1 cxir.2 restoredSys

/-- Name resolution as `eval`/`exec` with `(self.globals_dict,
self.locals_dict)` perform it for subsequent turns: locals first, then
globals. -/
def lookupName (s : SessionState) (n : String) : Option PyVal :=
  match dictGet? s.locals n with
  | some v => some v
  | none => dictGet? s.globals n

/-- The custom `interactive_input` closure installed as `builtins.input`
(pycoterm.py lines 130-164): flush any pending captured stdout as an
`output_ready` event, emit `input_requested`, block on the one-shot event,
and on wake raise `KeyboardInterrupt` when `interrupt_execution` set the
interrupted flag, else return the supplied response (empty string for a
missing or empty response). -/
def interactiveInput (prompt : String) (stdoutBuf : String) (interrupted : Bool)
    (resp : Option String) : List Ev × String × Except Unit String :=
  let evs := (if stdoutBuf ≠ "" then [Ev.outputReady stdoutBuf] else []) ++ [Ev.inputRequested prompt]
  let newBuf := if stdoutBuf ≠ "" then "" else stdoutBuf
  if interrupted then (evs, newBuf, Except.error ())
  else (evs, newBuf, Except.ok (resp.getD ""))

/-- The host interpreter's built-in identifier set, `dir(builtins)`:
modelled by the standard CPython listing (the engine only ever filters and
sorts it). -/
def builtinsDir : List String :=
  ["ArithmeticError", "AssertionError", "AttributeError", "BaseException",
   "BaseExceptionGroup", "BlockingIOError", "BrokenPipeError", "BufferError",
   "BytesWarning", "ChildProcessError", "ConnectionAbortedError",
   "ConnectionError", "ConnectionRefusedError", "ConnectionResetError",
   "DeprecationWarning", "EOFError", "Ellipsis", "EncodingWarning",
   "EnvironmentError", "Exception", "ExceptionGroup", "False",
   "FileExistsError", "FileNotFoundError", "FloatingPointError",
   "FutureWarning", "GeneratorExit", "IOError", "ImportError",
   "ImportWarning", "IndentationError", "IndexError", "InterruptedError",
   "IsADirectoryError", "KeyError", "KeyboardInterrupt", "LookupError",
   "MemoryError", "ModuleNotFoundError", "NameError", "None",
   "NotADirectoryError", "NotImplemented", "NotImplementedError", "OSError",
   "OverflowError", "PendingDeprecationWarning", "PermissionError",
   "ProcessLookupError", "RecursionError", "ReferenceError",
   "ResourceWarning", "RuntimeError", "RuntimeWarning",
   "StopAsyncIteration", "StopIteration", "SyntaxError", "SyntaxWarning",
   "SystemError", "SystemExit", "TabError", "TimeoutError", "True",
   "TypeError", "UnboundLocalError", "UnicodeDecodeError",
   "UnicodeEncodeError", "UnicodeError", "UnicodeTranslateError",
   "UnicodeWarning", "UserWarning", "ValueError", "Warning",
   "ZeroDivisionError", "__build_class__", "__debug__", "__doc__",
   "__import__", "__loader__", "__name__", "__package__", "__spec__",
   "abs", "aiter", "all", "anext", "any", "ascii", "bin", "bool",
   "breakpoint", "bytearray", "bytes", "callable", "chr", "classmethod",
   "compile", "complex", "copyright", "credits", "delattr", "dict", "dir",
   "divmod", "enumerate", "eval", "exec", "exit", "filter", "float",
   "format", "frozenset", "getattr", "globals", "hasattr", "hash", "help",
   "hex", "id", "input", "int", "isinstance", "issubclass", "iter", "len",
   "license", "list", "locals", "map", "max", "memoryview", "min", "next",
   "object", "oct", "open", "ord", "pow", "print", "property", "quit",
   "range", "repr", "reversed", "round", "set", "setattr", "slice",
   "sorted", "staticmethod", "str", "sum", "super", "tuple", "type",
   "vars", "zip"]

/-- Python `s.startswith(p)`: character-level prefix test. -/
def pyStartsWith (s p : String) : Bool := p.data.isPrefixOf s.data

/-- Python `s[:n]`: character-level slice. -/
def pyTake (s : String) (n : Nat) : String := String.mk (s.data.take n)

/-- Python `s[n:]`: character-level slice. -/
def pyDrop (s : String) (n : Nat) : String := String.mk (s.data.drop n)

/-- Helper for `pySplit`: walk the characters, accumulating the current
word reversed; whitespace closes the word (empty words dropped). -/
def splitWsAux : List Char → List Char → List String
  | [], acc => if acc = [] then [] else [String.mk acc.reverse]
  | c :: cs, acc =>
    if c.isWhitespace then
      (if acc = [] then [] else [String.mk acc.reverse]) ++ splitWsAux cs []
    else splitWsAux cs (c :: acc)

/-- Python `text.split()`: split on whitespace runs, no empty words. -/
def pySplit (s : String) : List String := splitWsAux s.data []

/-- Python `s.split(sep)` for a one-character separator, at the character
level; always returns at least one (possibly empty) part. -/
def splitOnChar (sep : Char) : List Char → List (List Char)
  | [] => [[]]
  | c :: cs =>
    let r := splitOnChar sep cs
    if c = sep then [] :: r
    else
      match r with
      | [] => [[c]]
      | h :: t => (c :: h) :: t

/-- Python `sep.join(parts)` for a one-character separator. -/
def joinSep (sep : Char) : List (List Char) → List Char
  | [] => []
  | [p] => p
  | p :: ps => p ++ sep :: joinSep sep ps

/-- Computable lexicographic comparison of character lists (the order
Python's `sorted` applies to identifier strings). -/
def charListLe : List Char → List Char → Bool
  | [], _ => true
  | _ :: _, [] => false
  | a :: as, b :: bs => if a < b then true else if b < a then false else charListLe as bs

/-- Computable lexicographic comparison of strings. -/
def strLe (a b : String) : Bool := charListLe a.data b.data

/-- Insert a string into a sorted list of strings, keeping it sorted. -/
def insertSorted (x : String) : List String → List String
  | [] => [x]
  | y :: ys => if strLe x y then x :: y :: ys else y :: insertSorted x ys

/-- Insertion sort on strings, in lexical order. -/
def sortStrings (l : List String) : List String := l.foldr insertSorted []

/-- Python `sorted(list(set(l)))`: deduplicate, then sort lexically. -/
def pySortedSet (l : List String) : List String := sortStrings l.dedup

/-- `PythonExecutor.setup_python_environment` (pycoterm.py lines 85-96):
`self.initial_globals` records the globals keys present before any user
code ran (`__name__`, `sys`, `builtins`) plus the non-underscore builtin
names. -/
def initialGlobals : List String :=
  ["__name__", "sys", "builtins"] ++ builtinsDir.filter (fun n => !(pyStartsWith n "_"))

/-- The executor's globals mapping as initialised by `__init__` and
`setup_python_environment`: `__name__`, the `sys` module and the
`builtins` module (three distinct objects). -/
def globals0 : Dict :=
  [("__name__", some (PyObj.obj 0)), ("sys", some (PyObj.obj 1)), ("builtins", some (PyObj.obj 2))]

/-- `TerminalWidget.get_all_completions` (pycoterm.py lines 733-742): every
non-underscore globals key that was not part of the initial seed state,
sorted and deduplicated. -/
def get_all_completions (g : Dict) : List String :=
  pySortedSet ((dictKeys g).filter
    (fun n => !(pyStartsWith n "_") && !(initialGlobals.contains n)))

/-- `TerminalWidget.get_completions` (pycoterm.py lines 691-731): split the
text before the cursor on whitespace; with no trailing word fall back to
`get_all_completions`; a trailing word containing a dot resolves the part
before the last dot against the executor's globals (`resolveDir` models
`dir(eval(obj_name, globals_dict))`, `none` modelling the swallowed
exception) and filters its attribute names; otherwise globals keys and
builtin names are filtered by the word, underscore names excluded, then
deduplicated and sorted. -/
def get_completions (text : String) (cursorPos : Nat) (g : Dict)
    (resolveDir : String → Option (List String)) : List String :=
  let words := pySplit (pyTake text cursorPos)
  match words.getLast? with
  | none => get_all_completions g
  | some lastWord =>
    if lastWord.data.contains '.' then
      let parts := splitOnChar '.' lastWord.data
      let objName := String.mk (joinSep '.' parts.dropLast)
      let attrPre := String.mk (parts.getLastD [])
      match resolveDir objName with
      | none => []
      | some attrs =>
        ((attrs.filter (fun a => pyStartsWith a attrPre)).map
          (fun a => objName ++ "." ++ a))
    else
      let fromGlobals := (dictKeys g).filter
        (fun n => pyStartsWith n lastWord && !(pyStartsWith n "_"))
      let fromBuiltins := builtinsDir.filter
        (fun n => pyStartsWith n lastWord && !(pyStartsWith n "_"))
      pySortedSet (fromGlobals ++ fromBuiltins)

/-- Python `f"{s:<{w}}"`: left-justify `s` in a field of `w` characters. -/
def ljust (s : String) (w : Nat) : String :=
  s ++ String.mk (List.replicate (w - s.length) ' ')

/-- The multi-column candidate listing of
`TerminalWidget.handle_tab_completion` (pycoterm.py lines 783-792):
`max_width` is the widest candidate's length, `cols = max(1, 80 //
(max_width + 2))`, and the candidates are written in order, each
left-justified to `max_width + 2`, with a line break inserted before every
`cols`-th entry (`if i > 0 and i % cols == 0`). -/
def columnListing (comps : List String) : String :=
  let maxWidth := (comps.map String.length).foldl max 0
  let cols := max 1 (80 / (maxWidth + 2))
  String.join (comps.enum.map (fun ic =>
    (if 0 < ic.1 ∧ ic.1 % cols = 0 then "\n" else "") ++ ljust ic.2 (maxWidth + 2)))

/-- Outcome of `TerminalWidget.handle_tab_completion`: the line-buffer text
after the key press, the cursor position within it, the text rendered below
the line when two or more candidates exist (a newline, the multi-column
listing rows, a closing newline — lines 781-792), and whether a fresh
prompt was drawn. -/
structure TabOutcome where
  buffer : String
  cursorPos : Nat
  listing : Option String
  promptRedrawn : Bool
deriving DecidableEq, Repr

/-- `TerminalWidget.handle_tab_completion` (pycoterm.py lines 744-799).
No candidates: return with the buffer untouched.  Exactly one: when the
text before the cursor has a trailing word, splice the candidate's missing
suffix in at the cursor (for a dotted word, the missing suffix of the
attribute part).  Two or more: render a newline, the multi-column listing
and a closing newline, redraw the prompt and re-insert the in-progress
command. -/
def handle_tab_completion (buffer : String) (cursorPos : Nat) (g : Dict)
    (resolveDir : String → Option (List String)) : TabOutcome :=
  let comps := get_completions buffer cursorPos g resolveDir
  if comps.isEmpty then
    { buffer := buffer, cursorPos := cursorPos, listing := none, promptRedrawn := false }
  else if comps.length = 1 then
    let words := pySplit (pyTake buffer cursorPos)
    match words.getLast? with
    | some lastWord =>
      let completion := comps.getD 0 ""
      let insertText :=
        if lastWord.data.contains '.' then
          let preToReplace := String.mk ((splitOnChar '.' lastWord.data).getLastD [])
          let attrName := String.mk ((splitOnChar '.' completion.data).getLastD [])
          pyDrop attrName preToReplace.length
        else
          pyDrop completion lastWord.length
      { buffer := pyTake buffer cursorPos ++ insertText ++ pyDrop buffer cursorPos
        cursorPos := cursorPos + insertText.length
        listing := none
        promptRedrawn := false }
    | none =>
      { buffer := buffer, cursorPos := cursorPos, listing := none, promptRedrawn := false }
  else
    { buffer := buffer, cursorPos := buffer.length,
      listing := some ("\n" ++ columnListing comps ++ "\n"), promptRedrawn := true }

/-- The code-submission tail of `TerminalWidget.handle_return` (pycoterm.py
lines 931-941), in the plain `Editing` state (neither `waiting_for_input`
nor `pyco_download_pending`): a fragment with non-empty strip is appended
to `command_history` unless it equals the last entry, `history_index` is
reset past the end, and the executor is started on it (third component
`true`); otherwise only a fresh prompt is drawn. -/
def handle_return (history : List String) (histIdx : Int) (command : String) :
    List String × Int × Bool :=
  if pyStrip command ≠ "" then
    let h := if history = [] ∨ history.getLast? ≠ some command then history ++ [command] else history
    (h, (h.length : Int), true)
  else
    (history, histIdx, false)

/-- `TerminalWidget.navigate_history` (pycoterm.py lines 1181-1193): with a
non-empty history, move the cursor by `direction`; inside the valid range
the recalled entry replaces the line buffer; past the newest entry the
cursor parks at `len(history)` and the buffer empties; before the oldest
entry nothing changes.  The history itself is returned untouched. -/
def navigate_history (history : List String) (histIdx : Int) (buffer : String)
    (direction : Int) : List String × Int × String :=
  if history = [] then (history, histIdx, buffer)
  else
    let newIndex := histIdx + direction
    if 0 ≤ newIndex ∧ newIndex < (history.length : Int) then
      (history, newIndex, history.getD newIndex.toNat "")
    else if (history.length : Int) ≤ newIndex then
      (history, (history.length : Int), "")
    else
      (history, histIdx, buffer)

/-- A user-code call that does nothing and returns `None`. -/
def callNil : CallOut :=
  { out := "", err := "", globalBinds := [], localBinds := [], res := Except.ok none }

/-- A hook invocation that does nothing and returns `None`. -/
def hookNil : HookRun := { out := "", err := "", res := Except.ok none }

/-- A display-hook invocation that does nothing, returns `None` and leaves
`builtins._` absent. -/
def displayNil : DisplayRun := { out := "", err := "", res := Except.ok none, underAfter := none }

/-- A quiescent turn behaviour: the fragment compiles as an expression and
evaluates to `None`; both hooks exist and do nothing. -/
def behNil : TurnBehavior where
  exprCompiles := true
  evalRun := callNil
  hasDisplayHook := true
  displayRun := displayNil
  reprResult := ""
  execRun := callNil
  hasExceptHook := true
  excepthookRun1 := hookNil
  excepthookRun2 := hookNil

/-- The session state right after `PythonExecutor.__init__`. -/
def sInit : SessionState := { globals := globals0, locals := [] }

/-- A process state for a fresh interpreter: `builtins._` absent, four
distinct stream/input handles. -/
def pInit : ProcState :=
  { under := none, sys := { stdoutH := 10, stderrH := 11, stdinH := 12, inputFn := 13 } }

/-- Looking up the key just assigned by `dictSet` yields the new value. -/
theorem dictGet?_dictSet_self (d : Dict) (k : String) (v : PyVal) :
    dictGet? (dictSet d k v) k = some v := by
  induction d with
  | nil => simp [dictSet, dictGet?]
  | cons hd tl ih =>
    obtain ⟨k', v'⟩ := hd
    by_cases h : k' = k <;> simp [dictSet, dictGet?, h, ih]

/-- `finishTurn` installs exactly the stream handles it is given. -/
theorem finishTurn_sys (cx : Ctx) (rv : PyVal) (eo : Bool) (rs : SysState) :
    (finishTurn cx rv eo rs).proc.sys = rs := by
  cases eo <;> cases rv <;> rfl

/-- `outerDispatch` installs exactly the stream handles it is given. -/
theorem outerDispatch_sys (beh : TurnBehavior) (cx : Ctx) (ir : InnerRes) (rs : SysState) :
    (outerDispatch beh cx ir rs).proc.sys = rs := by
  unfold outerDispatch
  split
  · rfl
  · split
    · rfl
    · exact finishTurn_sys ..
    · exact finishTurn_sys ..
  · exact finishTurn_sys ..

/-- C5: on every exit path of a turn — normal completion, a raised
exception, cancellation, or a hook that itself raises — the process-wide
standard-output, standard-error and standard-input handles and the input
primitive are exactly the values saved before the turn installed its
capture redirection: the `finally` block restores all four
unconditionally. -/
theorem c5_streams_restored (code : String) (beh : TurnBehavior) (s : SessionState)
    (p : ProcState) : (run code beh s p).proc.sys = p.sys := by
  unfold run
  split
  · rfl
  · exact outerDispatch_sys ..

/-- C7: submitting an empty or whitespace-only fragment mutates neither
the command history nor the namespace, and the turn completes with empty
output and the error flag false: `handle_return` only redraws the prompt
(history and cursor untouched, executor not started), and
`PythonExecutor.run` on such code finishes immediately with `("", False)`
leaving session and process state untouched. -/
theorem c7_empty_fragment (cmd : String) (hist : List String) (idx : Int)
    (beh : TurnBehavior) (s : SessionState) (p : ProcState) (h : pyStrip cmd = "") :
    handle_return hist idx cmd = (hist, idx, false) ∧
    run cmd beh s p =
      { events := [Ev.execFinished "" false], session := s, proc := p,
        trace := [], escaped := false } := by
  constructor
  · simp [handle_return, h]
  · simp [run, h]

/-- Witness: `c7_empty_fragment` at the three-space fragment. -/
theorem c7_empty_fragment_witness :
    handle_return ["x"] 1 "   " = (["x"], 1, false) ∧
    run "   " behNil sInit pInit =
      { events := [Ev.execFinished "" false], session := sInit, proc := pInit,
        trace := [], escaped := false } :=
  c7_empty_fragment "   " ["x"] 1 behNil sInit pInit (by decide)

/-- C8: the command history appends each submitted non-empty fragment
unless it equals the immediately preceding entry, the cursor resets past
the end, recall navigation never mutates the history, and the concrete
recall scenario after submitting `a` then `b` walks the buffers
`b`, `a`, `b`, `` exactly as claimed. -/
theorem c8_history_recall :
    (∀ (hist : List String) (idx : Int) (cmd : String), pyStrip cmd ≠ "" →
        handle_return hist idx cmd =
          (if hist.getLast? = some cmd then hist else hist ++ [cmd],
           ((if hist.getLast? = some cmd then hist else hist ++ [cmd]).length : Int),
           true)) ∧
    (∀ (hist : List String) (idx : Int) (buf : String) (d : Int),
        (navigate_history hist idx buf d).1 = hist) ∧
    handle_return [] (-1) "a" = (["a"], 1, true) ∧
    handle_return ["a"] 1 "b" = (["a", "b"], 2, true) ∧
    navigate_history ["a", "b"] 2 "" (-1) = (["a", "b"], 1, "b") ∧
    navigate_history ["a", "b"] 1 "b" (-1) = (["a", "b"], 0, "a") ∧
    navigate_history ["a", "b"] 0 "a" 1 = (["a", "b"], 1, "b") ∧
    navigate_history ["a", "b"] 1 "b" 1 = (["a", "b"], 2, "") := by
  refine ⟨?_, ?_, by decide, by decide, by decide, by decide, by decide, by decide⟩
  · intro hist idx cmd hc
    by_cases hg : hist.getLast? = some cmd
    · have hne : hist ≠ [] := by
        intro he
        rw [he] at hg
        exact (Option.noConfusion hg)
      simp [handle_return, hc, hg, hne]
    · simp [handle_return, hc, hg]
  · intro hist idx buf d
    simp only [navigate_history]
    split
    · rfl
    · split
      · rfl
      · split <;> rfl

/-- Witness: `c8_history_recall` applied to a duplicate submission. -/
theorem c8_history_recall_witness :
    handle_return ["a"] 1 "a" = (["a"], 1, true) := by
  have h := c8_history_recall.1 ["a"] 1 "a" (by decide)
  simpa using h

/-- Appending the empty string on the left is the identity. -/
theorem str_empty_append (s : String) : "" ++ s = s := rfl

/-- `finishTurn` reports exactly the trace accumulated so far. -/
theorem finishTurn_trace (cx : Ctx) (rv : PyVal) (eo : Bool) (rs : SysState) :
    (finishTurn cx rv eo rs).trace = cx.tr := by
  cases eo <;> cases rv <;> rfl

/-- The inner exception handling appends one `exceptHook` trace entry when
the hook exists and nothing otherwise. -/
theorem innerExcept_fst_tr (beh : TurnBehavior) (cx : Ctx) (e : PyExc) :
    (innerExcept beh cx e).1.tr =
      cx.tr ++ (if beh.hasExceptHook then [Act.exceptHook] else []) := by
  by_cases h : beh.hasExceptHook <;>
    rcases h3 : beh.excepthookRun1.res with he | (_ | x) <;>
    simp [innerExcept, doHookCall, h, h3]

/-- The outer exception handling appends one `exceptHook` trace entry when
the hook exists and nothing otherwise. -/
theorem outerExcept_fst_tr (beh : TurnBehavior) (cx : Ctx) (e : PyExc) :
    (outerExcept beh cx e).1.tr =
      cx.tr ++ (if beh.hasExceptHook then [Act.exceptHook] else []) := by
  by_cases h : beh.hasExceptHook <;> simp [outerExcept, doHookCall, h]

/-- The outer dispatch leaves the trace alone or appends the outer
exception handling's single entry. -/
theorem outerDispatch_trace (beh : TurnBehavior) (cx : Ctx) (ir : InnerRes) (rs : SysState) :
    (outerDispatch beh cx ir rs).trace = cx.tr ∨
    (outerDispatch beh cx ir rs).trace =
      cx.tr ++ (if beh.hasExceptHook then [Act.exceptHook] else []) := by
  rcases ir with ⟨rv, eo⟩ | e
  · exact Or.inl (finishTurn_trace ..)
  · rcases e with ⟨n, m⟩ | _ | ⟨n, m⟩
    · right
      rcases h2 : (outerExcept beh cx (PyExc.syntaxError n m)).2 with he | v
      · simp [outerDispatch, h2, outerExcept_fst_tr]
      · rcases v with _ | x <;>
          simp [outerDispatch, h2, finishTurn_trace, outerExcept_fst_tr]
    · exact Or.inl rfl
    · right
      rcases h2 : (outerExcept beh cx (PyExc.other n m)).2 with he | v
      · simp [outerDispatch, h2, outerExcept_fst_tr]
      · rcases v with _ | x <;>
          simp [outerDispatch, h2, finishTurn_trace, outerExcept_fst_tr]

/-- C3: a cancellation delivered while the worker is blocked on the input
wait makes the input primitive raise the interrupt (first conjunct), and a
turn whose evaluation raises `KeyboardInterrupt` ends with exactly the
fixed `("^C\nKeyboardInterrupt", True)` terminal event — independent of
whatever was captured on the streams — without ever invoking the generic
exception hook and without the generic stream-combination formatting, so
the interrupted outcome is never folded into the generic error outcome. -/
theorem c3_interrupt_outcome (prompt buf code : String) (resp : Option String)
    (beh : TurnBehavior) (s : SessionState) (p : ProcState)
    (h0 : pyStrip code ≠ "") (h1 : beh.exprCompiles = true)
    (h2 : beh.evalRun.res = Except.error PyExc.keyboardInterrupt) :
    (interactiveInput prompt buf true resp).2.2 = Except.error () ∧
    (run code beh s p).events = [Ev.execFinished "^C\nKeyboardInterrupt" true] ∧
    Act.exceptHook ∉ (run code beh s p).trace ∧
    (run code beh s p).escaped = false := by
  have hrun : run code beh s p =
      { events := [Ev.execFinished "^C\nKeyboardInterrupt" true]
        session := { globals := applyBinds s.globals beh.evalRun.globalBinds,
                     locals := applyBinds s.locals beh.evalRun.localBinds }
        proc := { under := p.under, sys := p.sys }
        trace := [Act.evalExpr]
        escaped := false } := by
    simp [run, exprBranch, doCall, outerDispatch, ctx0, h0, h1, h2]
  refine ⟨by simp [interactiveInput], ?_, ?_, ?_⟩ <;> simp [hrun]

/-- Fixture: a turn whose expression evaluation raises
`KeyboardInterrupt` (the input wait was cancelled). -/
def behKb : TurnBehavior :=
  { behNil with evalRun := { callNil with res := Except.error PyExc.keyboardInterrupt } }

/-- Witness: `c3_interrupt_outcome` on a concrete cancelled turn. -/
theorem c3_interrupt_outcome_witness :
    (interactiveInput "? " "pending" true none).2.2 = Except.error () ∧
    (run "input()" behKb sInit pInit).events = [Ev.execFinished "^C\nKeyboardInterrupt" true] ∧
    Act.exceptHook ∉ (run "input()" behKb sInit pInit).trace ∧
    (run "input()" behKb sInit pInit).escaped = false :=
  c3_interrupt_outcome "? " "pending" "input()" none behKb sInit pInit (by decide) rfl rfl

/-- Fixture: a statement turn that writes only to standard error. -/
def behStderrOnly : TurnBehavior :=
  { behNil with exprCompiles := false, execRun := { callNil with err := "E" } }

/-- C4 counterexample: a completed turn that captured no stdout and the
stderr text `E` emits the terminal event `("E", True)` — the claimed text,
standard-output followed by a separating newline and the standard-error
text, would be `"\nE"`, which is not what is emitted. -/
theorem c4_counterexample :
    (run "stmt" behStderrOnly sInit pInit).events = [Ev.execFinished "E" true] ∧
    ("E" : String) ≠ "" ++ "\n" ++ "E" := by
  constructor
  · rfl
  · decide

/-- C4 amended: every turn that runs to completion emits exactly one
terminal event; its text is the captured standard-output when standard-
error is empty, the standard-error text alone when standard-output is
empty, and standard-output, separating newline, standard-error when both
are non-empty; the is-error flag is true exactly when standard-error text
was produced.  Stated here for the statement-sequence path, quantified
over every behaviour of the executed statements. -/
theorem c4_amended (code : String) (beh : TurnBehavior) (s : SessionState) (p : ProcState)
    (x : PyVal) (h0 : pyStrip code ≠ "") (h1 : beh.exprCompiles = false)
    (h2 : beh.execRun.res = Except.ok x) :
    (run code beh s p).events =
      [Ev.execFinished
        (if beh.execRun.err = "" then beh.execRun.out
         else if beh.execRun.out = "" then beh.execRun.err
         else beh.execRun.out ++ "\n" ++ beh.execRun.err)
        (if beh.execRun.err = "" then false else true)] := by
  simp [run, exprBranch, stmtBranch, doCall, outerDispatch, finishTurn,
    ctx0, str_empty_append, h0, h1, h2]

/-- Fixture: a statement turn writing to both streams. -/
def behC4w : TurnBehavior :=
  { behNil with
      exprCompiles := false
      execRun := { callNil with out := "hello\n", err := "warning" } }

/-- Witness: `c4_amended` on a statement that writes to both streams. -/
theorem c4_amended_witness :
    (run "stmt" behC4w sInit pInit).events =
      [Ev.execFinished
        (if behC4w.execRun.err = "" then behC4w.execRun.out
         else if behC4w.execRun.out = "" then behC4w.execRun.err
         else behC4w.execRun.out ++ "\n" ++ behC4w.execRun.err)
        (if behC4w.execRun.err = "" then false else true)] :=
  c4_amended "stmt" behC4w sInit pInit none (by decide) rfl rfl

/-- Fixture: a turn that compiles as an expression but whose evaluation
raises a runtime `SyntaxError` (for example the fragment
`compile(bad_source, fname, eval_mode)`), while the statement-sequence
re-execution writes observable output. -/
def behRuntimeSyntax : TurnBehavior :=
  { behNil with
      evalRun :=
        { callNil with res := Except.error (PyExc.syntaxError "SyntaxError" "invalid syntax") }
      execRun := { callNil with out := "statement ran\n" } }

/-- C2 counterexample: a fragment that compiles successfully as an
expression (`exprCompiles = true`) and whose evaluation then raises — a
runtime `SyntaxError` — is nevertheless re-executed as a statement
sequence: the statement action appears in the trace and the statement's
output is emitted, because the `except SyntaxError` clause at line 205 of
pycoterm.py also catches `SyntaxError` raised by `eval`, not only by
`compile`. -/
theorem c2_counterexample :
    behRuntimeSyntax.exprCompiles = true ∧
    behRuntimeSyntax.evalRun.res =
      Except.error (PyExc.syntaxError "SyntaxError" "invalid syntax") ∧
    Act.execStmts ∈ (run "expr" behRuntimeSyntax sInit pInit).trace ∧
    (run "expr" behRuntimeSyntax sInit pInit).events =
      [Ev.execFinished "statement ran\n" false] := by
  refine ⟨rfl, rfl, ?_, rfl⟩
  decide

/-- Unfolding of `run` for non-empty code: the inner branch result is
dispatched by the outer clauses, with the saved handles (equal to the
entry handles) restored. -/
theorem run_eq_dispatch (code : String) (beh : TurnBehavior) (s : SessionState)
    (p : ProcState) (h0 : pyStrip code ≠ "") :
    run code beh s p =
      outerDispatch beh (exprBranch beh (ctx0 s p)).1 (exprBranch beh (ctx0 s p)).2 p.sys := by
  simp [run, h0]

/-- C2 amended: a fragment that compiles as an expression and whose
evaluation raises an ordinary (non-`SyntaxError`) runtime exception is
routed to the exception hook and the fragment is never re-executed as a
statement sequence; the statement-sequence path runs whenever the
expression compile fails.  (The correction: an exception that is itself a
`SyntaxError` instance — whether raised by the expression compile or at
runtime by the evaluation — triggers the statement re-execution, because
the source's `except SyntaxError` covers both.) -/
theorem c2_amended :
    (∀ (code : String) (beh : TurnBehavior) (s : SessionState) (p : ProcState) (n m : String),
        pyStrip code ≠ "" → beh.exprCompiles = true →
        beh.evalRun.res = Except.error (PyExc.other n m) → beh.hasExceptHook = true →
        Act.execStmts ∉ (run code beh s p).trace ∧
        Act.exceptHook ∈ (run code beh s p).trace) ∧
    (∀ (code : String) (beh : TurnBehavior) (s : SessionState) (p : ProcState),
        pyStrip code ≠ "" → beh.exprCompiles = false →
        Act.execStmts ∈ (run code beh s p).trace) := by
  constructor
  · intro code beh s p n m h0 h1 h2 hh
    have hE : exprBranch beh (ctx0 s p) =
        innerExcept beh
          { outBuf := beh.evalRun.out, errBuf := beh.evalRun.err,
            g := applyBinds s.globals beh.evalRun.globalBinds,
            l := applyBinds s.locals beh.evalRun.localBinds,
            bu := p.under, tr := [Act.evalExpr] } (PyExc.other n m) := by
      simp [exprBranch, doCall, ctx0, h1, h2]
    have htr : (exprBranch beh (ctx0 s p)).1.tr = [Act.evalExpr, Act.exceptHook] := by
      rw [hE, innerExcept_fst_tr]
      simp [hh]
    rw [run_eq_dispatch code beh s p h0]
    constructor
    · intro hmem
      rcases outerDispatch_trace beh (exprBranch beh (ctx0 s p)).1
          (exprBranch beh (ctx0 s p)).2 p.sys with h | h
      · rw [h, htr] at hmem
        simp at hmem
      · rw [h, htr, hh] at hmem
        simp at hmem
    · rcases outerDispatch_trace beh (exprBranch beh (ctx0 s p)).1
          (exprBranch beh (ctx0 s p)).2 p.sys with h | h <;>
        rw [h, htr] <;> simp
  · intro code beh s p h0 h1
    have hE : exprBranch beh (ctx0 s p) = stmtBranch beh (ctx0 s p) := by
      simp [exprBranch, h1]
    have hst : ∃ t, (stmtBranch beh (ctx0 s p)).1.tr = Act.execStmts :: t := by
      rcases h2 : beh.execRun.res with e | v
      · rcases e with ⟨n, m⟩ | _ | ⟨n, m⟩
        · refine ⟨if beh.hasExceptHook then [Act.exceptHook] else [], ?_⟩
          simp [stmtBranch, doCall, ctx0, h2, innerExcept_fst_tr]
        · exact ⟨[], by simp [stmtBranch, doCall, ctx0, h2]⟩
        · refine ⟨if beh.hasExceptHook then [Act.exceptHook] else [], ?_⟩
          simp [stmtBranch, doCall, ctx0, h2, innerExcept_fst_tr]
      · exact ⟨[], by simp [stmtBranch, doCall, ctx0, h2]⟩
    rcases hst with ⟨t, ht⟩
    rw [run_eq_dispatch code beh s p h0]
    rcases outerDispatch_trace beh (exprBranch beh (ctx0 s p)).1
        (exprBranch beh (ctx0 s p)).2 p.sys with h | h <;>
      rw [h, hE, ht] <;> simp

/-- Fixture: an expression turn raising `ZeroDivisionError` at runtime. -/
def behZeroDiv : TurnBehavior :=
  { behNil with
      evalRun :=
        { callNil with
            res := Except.error (PyExc.other "ZeroDivisionError" "division by zero") }
      excepthookRun1 :=
        { hookNil with err := "ZeroDivisionError: division by zero\n" } }

/-- Fixture: a fragment that only parses as a statement sequence. -/
def behAssign : TurnBehavior :=
  { behNil with
      exprCompiles := false
      execRun := { callNil with localBinds := [("x", some (PyObj.obj 5))] } }

/-- Witness: `c2_amended` on a division-by-zero expression turn and on a
statement turn. -/
theorem c2_amended_witness :
    (Act.execStmts ∉ (run "1/0" behZeroDiv sInit pInit).trace ∧
      Act.exceptHook ∈ (run "1/0" behZeroDiv sInit pInit).trace) ∧
    Act.execStmts ∈ (run "x = 5" behAssign sInit pInit).trace :=
  ⟨c2_amended.1 "1/0" behZeroDiv sInit pInit "ZeroDivisionError" "division by zero"
      (by decide) rfl rfl rfl,
    c2_amended.2 "x = 5" behAssign sInit pInit (by decide) rfl⟩

/-- Fixture: `builtins._` is absent, the fragment evaluates to the object
`obj 5`, and user code has installed a display hook that returns the
non-None object `obj 42` without touching `builtins._` (for example
`sys.displayhook = lambda v: 42` installed by an earlier statement turn in
a fresh process, where `builtins._` does not yet exist). -/
def behC1 : TurnBehavior :=
  { behNil with
      evalRun := { callNil with res := Except.ok (some (PyObj.obj 5)) }
      displayRun :=
        { out := "", err := "", res := Except.ok (some (PyObj.obj 42)), underAfter := none } }

/-- C1 counterexample: with `builtins._` absent before the turn and a
display hook that neither sets it nor leaves a comparable value, the two
`getattr(builtins, '_', object())` reads yield distinct fresh sentinels,
the engine wrongly concludes the hook updated `_`, stores the fresh
sentinel object in `globals_dict['_']` and skips its own update — so `_`
is neither the hook's non-null return value (`obj 42`) nor the
expression's value (`obj 5`), contradicting the claim. -/
theorem c1_counterexample :
    dictGet? (run "5+5" behC1 sInit pInit).session.globals "_" = some (some PyObj.sentinel) ∧
    (some (some PyObj.sentinel) : Option PyVal) ≠ some (some (PyObj.obj 42)) ∧
    (some (some PyObj.sentinel) : Option PyVal) ≠ some (some (PyObj.obj 5)) ∧
    (run "5+5" behC1 sInit pInit).proc.under = none := by
  exact ⟨rfl, by decide, by decide, rfl⟩

/-- C1 amended: for an expression turn whose evaluation yields the
non-None value `v` and whose display hook returns `r` without raising —
when the engine's identity comparison reports the hook changed
`builtins._` (which includes the case where the attribute is absent both
before and after the hook, each `getattr` then yielding a fresh sentinel),
the last-result entry becomes the post-hook `builtins._` value (a fresh
sentinel object when the attribute is absent) and the engine applies no
update of its own on top of the hook's; otherwise the last-result entry
equals the hook's return value if non-null, else the expression's value,
and `builtins._` is set to the same. -/
theorem c1_amended (code : String) (beh : TurnBehavior) (s : SessionState) (p : ProcState)
    (v : PyObj) (r : PyVal)
    (h0 : pyStrip code ≠ "") (h1 : beh.exprCompiles = true)
    (h2 : beh.evalRun.res = Except.ok (some v))
    (h3 : beh.hasDisplayHook = true)
    (h4 : beh.displayRun.res = Except.ok r) :
    if underscoreChanged p.under beh.displayRun.underAfter = true then
      dictGet? (run code beh s p).session.globals "_" =
          some (match beh.displayRun.underAfter with
                | some w => w
                | none => some PyObj.sentinel) ∧
        (run code beh s p).proc.under = beh.displayRun.underAfter
    else
      dictGet? (run code beh s p).session.globals "_" =
          some (match r with | some d => some d | none => some v) ∧
        (run code beh s p).proc.under =
          some (match r with | some d => some d | none => some v) := by
  by_cases hch : underscoreChanged p.under beh.displayRun.underAfter = true
  · rw [if_pos hch]
    have hE : exprBranch beh (ctx0 s p) =
        ({ outBuf := beh.evalRun.out ++ beh.displayRun.out,
           errBuf := beh.evalRun.err ++ beh.displayRun.err,
           g := dictSet (applyBinds s.globals beh.evalRun.globalBinds) "_"
                  (match beh.displayRun.underAfter with
                   | some w => w
                   | none => some PyObj.sentinel),
           l := applyBinds s.locals beh.evalRun.localBinds,
           bu := beh.displayRun.underAfter,
           tr := [Act.evalExpr, Act.displayHook] }, InnerRes.normal none false) := by
      simp [exprBranch, doCall, displayStep, ctx0, h1, h2, h3, h4, hch]
    rw [run_eq_dispatch code beh s p h0, hE]
    simp [outerDispatch, finishTurn, dictGet?_dictSet_self]
  · rw [if_neg hch]
    rcases r with _ | d
    · have hE : exprBranch beh (ctx0 s p) =
          ({ outBuf := beh.evalRun.out ++ beh.displayRun.out,
             errBuf := beh.evalRun.err ++ beh.displayRun.err,
             g := applyBinds s.globals beh.evalRun.globalBinds,
             l := applyBinds s.locals beh.evalRun.localBinds,
             bu := beh.displayRun.underAfter,
             tr := [Act.evalExpr, Act.displayHook] },
           InnerRes.normal (some v) false) := by
        simp [exprBranch, doCall, displayStep, ctx0, h1, h2, h3, h4, hch]
      rw [run_eq_dispatch code beh s p h0, hE]
      simp [outerDispatch, finishTurn, dictGet?_dictSet_self]
    · have hE : exprBranch beh (ctx0 s p) =
          ({ outBuf := beh.evalRun.out ++ beh.displayRun.out,
             errBuf := beh.evalRun.err ++ beh.displayRun.err,
             g := applyBinds s.globals beh.evalRun.globalBinds,
             l := applyBinds s.locals beh.evalRun.localBinds,
             bu := beh.displayRun.underAfter,
             tr := [Act.evalExpr, Act.displayHook] },
           InnerRes.normal (some d) false) := by
        simp [exprBranch, doCall, displayStep, ctx0, h1, h2, h3, h4, hch]
      rw [run_eq_dispatch code beh s p h0, hE]
      simp [outerDispatch, finishTurn, dictGet?_dictSet_self]

/-- Fixture: `builtins._` holds `obj 9`; the display hook leaves it alone
and returns `None`; the expression evaluates to `obj 5`. -/
def behC1w : TurnBehavior :=
  { behNil with
      evalRun := { callNil with res := Except.ok (some (PyObj.obj 5)) }
      displayRun :=
        { out := "10\n", err := "", res := Except.ok none,
          underAfter := some (some (PyObj.obj 9)) } }

/-- Process state with `builtins._` holding `obj 9`. -/
def pC1w : ProcState := { pInit with under := some (some (PyObj.obj 9)) }

/-- Witness: `c1_amended` on a turn whose hook leaves `builtins._` alone
— the last-result entry gets the expression's value. -/
theorem c1_amended_witness :
    dictGet? (run "5+5" behC1w sInit pC1w).session.globals "_" = some (some (PyObj.obj 5)) ∧
    (run "5+5" behC1w sInit pC1w).proc.under = some (some (PyObj.obj 5)) := by
  have h := c1_amended "5+5" behC1w sInit pC1w (PyObj.obj 5) none (by decide) rfl rfl rfl rfl
  simpa [behC1w, pC1w, pInit, underscoreChanged] using h

/-- Fixture: a statement turn that raises `ValueError` while the installed
exception hook handles it and returns the usable value `obj 77`. -/
def behC10w : TurnBehavior :=
  { behNil with
      exprCompiles := false
      execRun := { callNil with res := Except.error (PyExc.other "ValueError" "boom") }
      excepthookRun1 := { out := "", err := "handled\n", res := Except.ok (some (PyObj.obj 77)) } }

/-- C10: whenever the engine's own completion tail updates the last-result
entry (no exception outstanding, `result_value` non-None — here reached
through an exception hook that returned a usable value), it assigns the
very same value to the process-wide `builtins._` attribute, which lives in
the `ProcState` shared by every executor instance rather than in the
session's own mapping. -/
theorem c10_builtins_underscore (code : String) (beh : TurnBehavior) (s : SessionState)
    (p : ProcState) (x : PyObj) (n m : String)
    (h0 : pyStrip code ≠ "") (h1 : beh.exprCompiles = false)
    (h2 : beh.execRun.res = Except.error (PyExc.other n m))
    (h3 : beh.hasExceptHook = true)
    (h4 : beh.excepthookRun1.res = Except.ok (some x)) :
    (run code beh s p).proc.under = some (some x) ∧
    dictGet? (run code beh s p).session.globals "_" = some (some x) := by
  have hE : exprBranch beh (ctx0 s p) =
      ({ outBuf := beh.execRun.out ++ beh.excepthookRun1.out,
         errBuf := beh.execRun.err ++ beh.excepthookRun1.err,
         g := applyBinds s.globals beh.execRun.globalBinds,
         l := applyBinds s.locals beh.execRun.localBinds,
         bu := p.under,
         tr := [Act.execStmts, Act.exceptHook] }, InnerRes.normal (some x) false) := by
    simp [exprBranch, stmtBranch, innerExcept, doCall, doHookCall, ctx0, h1, h2, h3, h4]
  rw [run_eq_dispatch code beh s p h0, hE]
  simp [outerDispatch, finishTurn, dictGet?_dictSet_self]

/-- Witness: `c10_builtins_underscore` on the `ValueError` fixture. -/
theorem c10_builtins_underscore_witness :
    (run "raise_stmt" behC10w sInit pInit).proc.under = some (some (PyObj.obj 77)) ∧
    dictGet? (run "raise_stmt" behC10w sInit pInit).session.globals "_" =
      some (some (PyObj.obj 77)) :=
  c10_builtins_underscore "raise_stmt" behC10w sInit pInit (PyObj.obj 77) "ValueError" "boom"
    (by decide) rfl rfl rfl rfl

/-- Inserting into a sorted list is a permutation of consing. -/
theorem insertSorted_perm (x : String) (l : List String) :
    (insertSorted x l).Perm (x :: l) := by
  induction l with
  | nil => simp [insertSorted]
  | cons y ys ih =>
    cases h : strLe x y
    · simp only [insertSorted, h, Bool.false_eq_true, if_false]
      exact ((ih.cons y).trans (List.Perm.swap x y ys))
    · simp [insertSorted, h]

/-- Insertion sort permutes its input. -/
theorem sortStrings_perm (l : List String) : (sortStrings l).Perm l := by
  induction l with
  | nil => simp [sortStrings]
  | cons a l ih =>
    exact (insertSorted_perm a (sortStrings l)).trans (ih.cons a)

/-- Membership in `sorted(list(set(l)))` is membership in `l`. -/
theorem mem_pySortedSet (x : String) (l : List String) :
    x ∈ pySortedSet l ↔ x ∈ l := by
  unfold pySortedSet
  rw [(sortStrings_perm l.dedup).mem_iff, List.mem_dedup]

/-- The inner exception handling does not touch the locals mapping. -/
theorem innerExcept_fst_l (beh : TurnBehavior) (cx : Ctx) (e : PyExc) :
    (innerExcept beh cx e).1.l = cx.l := by
  by_cases h : beh.hasExceptHook <;>
    rcases h3 : beh.excepthookRun1.res with he | (_ | x) <;>
    simp [innerExcept, doHookCall, h, h3]

/-- The outer exception handling does not touch the locals mapping. -/
theorem outerExcept_fst_l (beh : TurnBehavior) (cx : Ctx) (e : PyExc) :
    (outerExcept beh cx e).1.l = cx.l := by
  by_cases h : beh.hasExceptHook <;> simp [outerExcept, doHookCall, h]

/-- The completion tail reports the locals mapping unchanged. -/
theorem finishTurn_locals (cx : Ctx) (rv : PyVal) (eo : Bool) (rs : SysState) :
    (finishTurn cx rv eo rs).session.locals = cx.l := by
  cases eo <;> cases rv <;> rfl

/-- The outer dispatch reports the locals mapping of the inner context. -/
theorem outerDispatch_locals (beh : TurnBehavior) (cx : Ctx) (ir : InnerRes) (rs : SysState) :
    (outerDispatch beh cx ir rs).session.locals = cx.l := by
  rcases ir with ⟨rv, eo⟩ | e
  · exact finishTurn_locals ..
  · rcases e with ⟨n, m⟩ | _ | ⟨n, m⟩
    · rcases h2 : (outerExcept beh cx (PyExc.syntaxError n m)).2 with he | v
      · simp [outerDispatch, h2, outerExcept_fst_l]
      · rcases v with _ | x <;>
          simp [outerDispatch, h2, finishTurn_locals, outerExcept_fst_l]
    · rfl
    · rcases h2 : (outerExcept beh cx (PyExc.other n m)).2 with he | v
      · simp [outerDispatch, h2, outerExcept_fst_l]
      · rcases v with _ | x <;>
          simp [outerDispatch, h2, finishTurn_locals, outerExcept_fst_l]

/-- The statement branch applies exactly the statement call's local
bindings to the locals mapping. -/
theorem stmtBranch_fst_l (beh : TurnBehavior) (cx : Ctx) :
    (stmtBranch beh cx).1.l = applyBinds cx.l beh.execRun.localBinds := by
  rcases h2 : beh.execRun.res with e | v
  · rcases e with ⟨n, m⟩ | _ | ⟨n, m⟩ <;>
      simp [stmtBranch, doCall, h2, innerExcept_fst_l]
  · simp [stmtBranch, doCall, h2]

/-- Fixture: a statement turn binding the identifier `zebra` (for example
the fragment `zebra = 5`): the binding lands in the executor's separate
locals mapping, per `exec(compiled, self.globals_dict, self.locals_dict)`. -/
def behC6 : TurnBehavior :=
  { behNil with
      exprCompiles := false
      execRun := { callNil with localBinds := [("zebra", some (PyObj.obj 7))] } }

/-- C6 counterexample: after the statement turn `zebra = 5`, the
identifier is visible to subsequent turns (name lookup falls back from the
locals mapping), yet a completion request on the trailing token `zebra` —
a prefix of the identifier, no dot, not an underscore name — returns no
candidates at all, because `get_completions` enumerates only
`globals_dict` (plus builtins) and the binding lives in `locals_dict`. -/
theorem c6_counterexample :
    lookupName (run "zebra = 5" behC6 sInit pInit).session "zebra" =
      some (some (PyObj.obj 7)) ∧
    "zebra" ∉ get_completions "zebra" 5
        (run "zebra = 5" behC6 sInit pInit).session.globals (fun _ => none) ∧
    get_completions "zebra" 5
        (run "zebra = 5" behC6 sInit pInit).session.globals (fun _ => none) = [] := by
  refine ⟨rfl, ?_, rfl⟩
  decide

/-- C6 amended: identifiers bound by an earlier turn remain visible in
subsequent turns — a binding made by a statement turn lands in the
executor's persistent locals mapping and name lookup resolves it — and a
completion request whose dot-free trailing token prefixes a non-underscore
key of the globals mapping lists that key; but completion enumerates only
the globals mapping and the builtin names, so identifiers bound by
ordinary assignment in submitted fragments (which live in the separate
locals mapping) are never among the candidates. -/
theorem c6_amended :
    (∀ (code : String) (beh : TurnBehavior) (s : SessionState) (p : ProcState)
        (x : String) (v : PyVal),
        pyStrip code ≠ "" → beh.exprCompiles = false →
        beh.execRun.localBinds = [(x, v)] →
        lookupName (run code beh s p).session x = some v) ∧
    (∀ (text : String) (cursorPos : Nat) (g : Dict)
        (rd : String → Option (List String)) (x lastWord : String),
        (pySplit (pyTake text cursorPos)).getLast? = some lastWord →
        lastWord.data.contains '.' = false →
        x ∈ dictKeys g → pyStartsWith x lastWord = true → pyStartsWith x "_" = false →
        x ∈ get_completions text cursorPos g rd) ∧
    (∀ (text : String) (cursorPos : Nat) (g : Dict)
        (rd : String → Option (List String)) (y lastWord : String),
        (pySplit (pyTake text cursorPos)).getLast? = some lastWord →
        lastWord.data.contains '.' = false →
        y ∈ get_completions text cursorPos g rd →
        y ∈ dictKeys g ∨ y ∈ builtinsDir) := by
  refine ⟨?_, ?_, ?_⟩
  · intro code beh s p x v h0 h1 h2
    have hE : exprBranch beh (ctx0 s p) = stmtBranch beh (ctx0 s p) := by
      simp [exprBranch, h1]
    have hl : (run code beh s p).session.locals = dictSet s.locals x v := by
      rw [run_eq_dispatch code beh s p h0, outerDispatch_locals, hE, stmtBranch_fst_l, h2]
      simp [applyBinds, ctx0]
    unfold lookupName
    rw [hl, dictGet?_dictSet_self]
  · intro text cursorPos g rd x lastWord hlast hdot hx hpre hund
    simp only [get_completions, hlast, hdot, Bool.false_eq_true, if_false]
    rw [mem_pySortedSet]
    refine List.mem_append.mpr (Or.inl ?_)
    rw [List.mem_filter]
    exact ⟨hx, by simp [hpre, hund]⟩
  · intro text cursorPos g rd y lastWord hlast hdot hy
    simp only [get_completions, hlast, hdot, Bool.false_eq_true, if_false] at hy
    rw [mem_pySortedSet] at hy
    rcases List.mem_append.mp hy with h | h
    · exact Or.inl (List.mem_filter.mp h).1
    · exact Or.inr (List.mem_filter.mp h).1

/-- Witness: `c6_amended` — the `zebra = 5` turn leaves `zebra` visible,
and a key of the globals mapping is completed from its prefix. -/
theorem c6_amended_witness :
    lookupName (run "zebra = 5" behC6 sInit pInit).session "zebra" =
      some (some (PyObj.obj 7)) ∧
    "sys" ∈ get_completions "sy" 2 globals0 (fun _ => none) :=
  ⟨c6_amended.1 "zebra = 5" behC6 sInit pInit "zebra" (some (PyObj.obj 7))
      (by decide) rfl rfl,
    c6_amended.2.1 "sy" 2 globals0 (fun _ => none) "sys" "sy"
      (by decide) (by decide) (by decide) (by decide) (by decide)⟩

/-- Strings with equal character data are equal. -/
theorem string_data_inj (a b : String) (h : a.data = b.data) : a = b := by
  cases a
  cases b
  cases h
  rfl

/-- `charListLe` decides the lexicographic order on character lists. -/
theorem charListLe_iff (x y : List Char) :
    charListLe x y = true ↔ (List.Lex (· < ·) x y ∨ x = y) := by
  induction x generalizing y with
  | nil =>
    cases y with
    | nil => simp [charListLe]
    | cons b bs => simp [charListLe, List.Lex.nil]
  | cons a as ih =>
    cases y with
    | nil =>
      simp only [charListLe, Bool.false_eq_true, false_iff]
      rintro (h | h)
      · cases h
      · cases h
    | cons b bs =>
      by_cases hab : a < b
      · simp only [charListLe, if_pos hab, true_iff]
        exact Or.inl (List.Lex.rel hab)
      · by_cases hba : b < a
        · simp only [charListLe, if_neg hab, if_pos hba, Bool.false_eq_true, false_iff]
          rintro (h | h)
          · cases h with
            | rel h => exact hab h
            | cons h => exact absurd hba (lt_irrefl a)
          · injection h with h1 h2
            exact hab (h1 ▸ hba)
        · have heq : a = b := le_antisymm (not_lt.mp hba) (not_lt.mp hab)
          subst heq
          simp only [charListLe, if_neg hab, lt_irrefl, if_false]
          rw [ih bs]
          constructor
          · rintro (h | h)
            · exact Or.inl (List.Lex.cons h)
            · exact Or.inr (by rw [h])
          · rintro (h | h)
            · exact Or.inl (List.Lex.cons_iff.mp h)
            · injection h with h1 h2
              exact Or.inr h2

/-- `strLe` decides the string order that `sorted` uses. -/
theorem strLe_iff (a b : String) : strLe a b = true ↔ a ≤ b := by
  rw [strLe, charListLe_iff, le_iff_lt_or_eq]
  constructor
  · rintro (h | h)
    · exact Or.inl (String.lt_iff_toList_lt.mpr h)
    · exact Or.inr (string_data_inj a b h)
  · rintro (h | h)
    · exact Or.inl (String.lt_iff_toList_lt.mp h)
    · exact Or.inr (by rw [h])

/-- Inserting into a sorted list keeps it sorted. -/
theorem sorted_insertSorted (x : String) (l : List String)
    (h : l.Sorted (· ≤ ·)) : (insertSorted x l).Sorted (· ≤ ·) := by
  induction l with
  | nil => simp [insertSorted]
  | cons y ys ih =>
    rw [List.sorted_cons] at h
    cases hxy : strLe x y
    · have hyx : y ≤ x := by
        rcases le_total x y with hle | hle
        · exact absurd ((strLe_iff x y).mpr hle) (by simp [hxy])
        · exact hle
      simp only [insertSorted, hxy, Bool.false_eq_true, if_false]
      rw [List.sorted_cons]
      refine ⟨?_, ih h.2⟩
      intro b hb
      rcases List.mem_cons.mp ((insertSorted_perm x ys).mem_iff.mp hb) with rfl | hb
      · exact hyx
      · exact h.1 b hb
    · have hle : x ≤ y := (strLe_iff x y).mp hxy
      simp only [insertSorted, hxy, if_true]
      rw [List.sorted_cons]
      refine ⟨?_, List.sorted_cons.mpr h⟩
      intro b hb
      rcases List.mem_cons.mp hb with rfl | hb
      · exact hle
      · exact hle.trans (h.1 b hb)

/-- Insertion sort sorts. -/
theorem sortStrings_sorted (l : List String) : (sortStrings l).Sorted (· ≤ ·) := by
  induction l with
  | nil => simp [sortStrings]
  | cons a l ih => exact sorted_insertSorted a (sortStrings l) ih

/-- `sorted(list(set(l)))` is sorted. -/
theorem pySortedSet_sorted (l : List String) : (pySortedSet l).Sorted (· ≤ ·) :=
  sortStrings_sorted l.dedup

/-- `sorted(list(set(l)))` has no duplicates. -/
theorem pySortedSet_nodup (l : List String) : (pySortedSet l).Nodup :=
  ((sortStrings_perm l.dedup).nodup_iff).mpr l.nodup_dedup

/-- `splitOnChar` always yields at least one part. -/
theorem splitOnChar_ne_nil (sep : Char) (l : List Char) : splitOnChar sep l ≠ [] := by
  induction l with
  | nil => simp [splitOnChar]
  | cons c cs ih =>
    by_cases h : c = sep
    · simp [splitOnChar, h]
    · simp only [splitOnChar, if_neg h]
      rcases hr : splitOnChar sep cs with _ | ⟨hd, tl⟩ <;> simp

/-- The default of `getLastD` is irrelevant for a non-empty list. -/
theorem getLastD_irrel (l : List (List Char)) (d1 d2 : List Char) (h : l ≠ []) :
    l.getLastD d1 = l.getLastD d2 := by
  cases l with
  | nil => exact absurd rfl h
  | cons a l => rw [List.getLastD_cons, List.getLastD_cons]

/-- Splitting a separator-free list yields that list as the one part. -/
theorem splitOnChar_no_sep (sep : Char) (a : List Char) (ha : sep ∉ a) :
    splitOnChar sep a = [a] := by
  induction a with
  | nil => rfl
  | cons c cs ih =>
    have hc : ¬ c = sep := by
      rintro rfl
      exact ha (List.mem_cons_self ..)
    have hcs : sep ∉ cs := fun h => ha (List.mem_cons_of_mem _ h)
    simp only [splitOnChar, if_neg hc, ih hcs]

/-- Splitting a list that starts with the separator: an empty first part.
-/
theorem splitOnChar_cons_sep (sep : Char) (l : List Char) :
    splitOnChar sep (sep :: l) = [] :: splitOnChar sep l := by
  simp [splitOnChar]

/-- A list containing the separator splits into at least two parts. -/
theorem splitOnChar_append_two (sep : Char) (x a : List Char) :
    2 ≤ (splitOnChar sep (x ++ sep :: a)).length := by
  induction x with
  | nil =>
    rw [List.nil_append, splitOnChar_cons_sep]
    have := List.length_pos.mpr (splitOnChar_ne_nil sep a)
    simp only [List.length_cons]
    omega
  | cons c x ih =>
    by_cases h : c = sep
    · subst h
      rw [List.cons_append, splitOnChar_cons_sep]
      have := List.length_pos.mpr (splitOnChar_ne_nil c (x ++ c :: a))
      simp only [List.length_cons]
      omega
    · simp only [List.cons_append, splitOnChar, if_neg h]
      rcases hr : splitOnChar sep (x ++ sep :: a) with _ | ⟨hd, tl⟩
      · exact absurd hr (splitOnChar_ne_nil _ _)
      · have := ih
        rw [hr] at this
        simpa using this

/-- The last part of splitting `x ++ sep :: a` with `a` separator-free is
`a`. -/
theorem getLastD_splitOnChar_append (sep : Char) (x a : List Char) (ha : sep ∉ a) :
    (splitOnChar sep (x ++ sep :: a)).getLastD [] = a := by
  induction x with
  | nil =>
    rw [List.nil_append, splitOnChar_cons_sep]
    rw [List.getLastD_cons, splitOnChar_no_sep sep a ha]
    rfl
  | cons c x ih =>
    by_cases h : c = sep
    · subst h
      rw [List.cons_append, splitOnChar_cons_sep, List.getLastD_cons]
      exact ih
    · simp only [List.cons_append, splitOnChar, if_neg h]
      rcases hr : splitOnChar sep (x ++ sep :: a) with _ | ⟨hd, tl⟩
      · exact absurd hr (splitOnChar_ne_nil _ _)
      · rcases tl with _ | ⟨t1, ts⟩
        · have h2 := splitOnChar_append_two sep x a
          rw [hr] at h2
          simp at h2
        · rw [List.getLastD_cons]
          have hih := ih
          rw [hr, List.getLastD_cons] at hih
          rw [getLastD_irrel (t1 :: ts) (c :: hd) hd (by simp)]
          exact hih

/-- `joinSep` of a list headed by a part with a non-empty tail unfolds to
the part, the separator, the joined tail. -/
theorem joinSep_cons_ne (sep : Char) (p : List Char) (ps : List (List Char)) (h : ps ≠ []) :
    joinSep sep (p :: ps) = p ++ sep :: joinSep sep ps := by
  cases ps with
  | nil => exact absurd rfl h
  | cons q qs => rfl

/-- Joining undoes splitting. -/
theorem joinSep_splitOnChar (sep : Char) (l : List Char) :
    joinSep sep (splitOnChar sep l) = l := by
  induction l with
  | nil => rfl
  | cons c cs ih =>
    by_cases h : c = sep
    · subst h
      rw [splitOnChar_cons_sep, joinSep_cons_ne _ _ _ (splitOnChar_ne_nil c cs), ih]
      rfl
    · simp only [splitOnChar, if_neg h]
      rcases hr : splitOnChar sep cs with _ | ⟨hd, tl⟩
      · exact absurd hr (splitOnChar_ne_nil _ _)
      · rw [hr] at ih
        rcases tl with _ | ⟨t1, ts⟩
        · simp only [joinSep] at ih ⊢
          rw [ih]
        · rw [joinSep_cons_ne _ _ _ (by simp)] at ih
          rw [joinSep_cons_ne _ _ _ (by simp), List.cons_append, ih]

/-- Splitting off the last part: for a two-or-more-part split, the join is
the join of the initial parts, the separator, the last part. -/
theorem joinSep_dropLast_getLastD (sep : Char) (ps : List (List Char)) (h : 2 ≤ ps.length) :
    joinSep sep ps = joinSep sep ps.dropLast ++ sep :: ps.getLastD [] := by
  induction ps with
  | nil => simp at h
  | cons p ps ih =>
    rcases ps with _ | ⟨q, qs⟩
    · simp at h
    · rw [joinSep_cons_ne _ _ _ (by simp), List.getLastD_cons]
      rcases qs with _ | ⟨q2, qs2⟩
      · rfl
      · have h2 : 2 ≤ (q :: q2 :: qs2).length := by simp
        have hd : (p :: q :: q2 :: qs2).dropLast = p :: (q :: q2 :: qs2).dropLast := by
          rfl
        rw [ih h2, hd, joinSep_cons_ne _ _ _ (by simp [List.dropLast]),
          getLastD_irrel (q :: q2 :: qs2) p [] (by simp), List.append_assoc,
          List.cons_append]

/-- A verified Boolean character-prefix recovers the whole list. -/
theorem isPrefixOf_append_drop (p s : List Char) (h : p.isPrefixOf s = true) :
    p ++ s.drop p.length = s := by
  induction p generalizing s with
  | nil => simp
  | cons c cs ih =>
    cases s with
    | nil => simp [List.isPrefixOf] at h
    | cons d ds =>
      simp only [List.isPrefixOf, Bool.and_eq_true, beq_iff_eq] at h
      rcases h with ⟨rfl, h2⟩
      simpa using ih ds h2

/-- A verified `startswith` recovers the whole string: the token, then the
candidate's missing suffix. -/
theorem pyStartsWith_append_pyDrop (s p : String) (h : pyStartsWith s p = true) :
    p ++ pyDrop s p.length = s := by
  apply string_data_inj
  rw [String.data_append]
  rw [pyStartsWith] at h
  exact isPrefixOf_append_drop p.data s.data h

/-- Prepending a common character list preserves the lexicographic
comparison. -/
theorem lex_append_left (p a b : List Char) (h : List.Lex (· < ·) a b ∨ a = b) :
    List.Lex (· < ·) (p ++ a) (p ++ b) ∨ p ++ a = p ++ b := by
  induction p with
  | nil => simpa using h
  | cons c p ih =>
    rcases ih with h' | h'
    · exact Or.inl (List.Lex.cons h')
    · exact Or.inr (by rw [List.cons_append, List.cons_append, h'])

/-- Prepending a common string preserves the string order. -/
theorem str_le_append_left (p : String) (a b : String) (h : a ≤ b) : p ++ a ≤ p ++ b := by
  rw [← strLe_iff] at h ⊢
  rw [strLe, charListLe_iff] at h ⊢
  rw [String.data_append, String.data_append]
  exact lex_append_left p.data a.data b.data h

/-- Prepending a common string is injective. -/
theorem str_append_left_inj (p : String) (a b : String) (h : p ++ a = p ++ b) : a = b := by
  apply string_data_inj
  have hd := congrArg String.data h
  rw [String.data_append, String.data_append] at hd
  exact List.append_cancel_left hd

/-- The candidate list returned by `get_completions` is lexically sorted
and duplicate-free — in the attribute branch under Python's `dir`
contract (`dir` returns a sorted duplicate-free listing). -/
theorem get_completions_sorted_nodup (text : String) (cursorPos : Nat) (g : Dict)
    (rd : String → Option (List String))
    (hrd : ∀ nm attrs, rd nm = some attrs → attrs.Sorted (· ≤ ·) ∧ attrs.Nodup) :
    (get_completions text cursorPos g rd).Sorted (· ≤ ·) ∧
    (get_completions text cursorPos g rd).Nodup := by
  rcases hw : (pySplit (pyTake text cursorPos)).getLast? with _ | lastWord
  · simp only [get_completions, get_all_completions, hw]
    exact ⟨pySortedSet_sorted _, pySortedSet_nodup _⟩
  · cases hdot : lastWord.data.contains '.'
    · simp only [get_completions, hw, hdot, Bool.false_eq_true, if_false]
      exact ⟨pySortedSet_sorted _, pySortedSet_nodup _⟩
    · rcases hattrs : rd (String.mk (joinSep '.' ((splitOnChar '.' lastWord.data).dropLast)))
        with _ | attrs
      · simp only [get_completions, hw, hdot, if_true, hattrs]
        simp
      · obtain ⟨hs, hn⟩ := hrd _ attrs hattrs
        simp only [get_completions, hw, hdot, if_true, hattrs]
        exact ⟨List.Pairwise.map _
            (fun a b hab => str_le_append_left _ a b hab) (hs.filter _),
          (hn.filter _).map (fun a b hab => str_append_left_inj _ a b hab)⟩

/-- Decomposition facts for an attribute-completion candidate: with the
token splitting into at least two parts, the candidate built from the
object part, a dot, the attribute `a` (no dot in `a`, `a` extending the
attribute part of the token) satisfies: the token is object-dot-attribute
part; the candidate re-splits with last part `a`; and the candidate is the
token followed by the characters of `a` past the attribute part. -/
theorem dot_candidate_key (lw a c : String)
    (hparts2 : 2 ≤ (splitOnChar '.' lw.data).length)
    (hc : c = String.mk (joinSep '.' ((splitOnChar '.' lw.data).dropLast)) ++ "." ++ a)
    (hfa : pyStartsWith a (String.mk ((splitOnChar '.' lw.data).getLastD [])) = true)
    (hnodot : ('.' : Char) ∉ a.data) :
    c.data = joinSep '.' ((splitOnChar '.' lw.data).dropLast) ++ '.' :: a.data ∧
    (splitOnChar '.' c.data).getLastD [] = a.data ∧
    c.data = lw.data ++ a.data.drop ((splitOnChar '.' lw.data).getLastD []).length := by
  have hlw : lw.data =
      joinSep '.' ((splitOnChar '.' lw.data).dropLast) ++
        '.' :: (splitOnChar '.' lw.data).getLastD [] := by
    conv_lhs => rw [← joinSep_splitOnChar '.' lw.data]
    exact joinSep_dropLast_getLastD '.' _ hparts2
  have hcd : c.data = joinSep '.' ((splitOnChar '.' lw.data).dropLast) ++ '.' :: a.data := by
    rw [hc, String.data_append, String.data_append]
    simp
  refine ⟨hcd, ?_, ?_⟩
  · rw [hcd]
    exact getLastD_splitOnChar_append '.' _ a.data hnodot
  · have hrec : ((splitOnChar '.' lw.data).getLastD []) ++
        a.data.drop ((splitOnChar '.' lw.data).getLastD []).length = a.data := by
      rw [pyStartsWith] at hfa
      exact isPrefixOf_append_drop _ a.data hfa
    generalize hP : splitOnChar '.' lw.data = P at hlw hcd hrec ⊢
    rw [hcd, hlw, List.append_assoc, List.cons_append, hrec]

/-- Session globals with one user-defined binding `foo`. -/
def g0foo : Dict := dictSet globals0 "foo" (some (PyObj.obj 3))

/-- C9 counterexample: a completion request on an empty line buffer
(cursor at 0) with exactly one candidate (`foo`, the only non-seed
globals entry) leaves the buffer unchanged — `handle_tab_completion`
splices nothing because the text before the cursor has no trailing word —
while the claim says precisely the candidate's missing suffix (here all of
`foo`) is spliced in. -/
theorem c9_counterexample :
    get_completions "" 0 g0foo (fun _ => none) = ["foo"] ∧
    handle_tab_completion "" 0 g0foo (fun _ => none) =
      { buffer := "", cursorPos := 0, listing := none, promptRedrawn := false } ∧
    ("" : String) ≠ "foo" := by
  refine ⟨rfl, rfl, by decide⟩

/-- C9 amended: on a completion request — with zero candidates the line
buffer is unchanged; with exactly one candidate, provided the text before
the cursor has a trailing word, precisely the candidate's missing suffix
(the candidate's characters past the trailing word) is spliced into the
buffer at the cursor — when the text before the cursor has no trailing
word, the buffer stays unchanged; with two or more candidates a lexically
sorted, deduplicated, multi-column listing is rendered (the text inserted
below the line is a newline, the candidates in `columnListing`'s padded
column format, a closing newline), after which a fresh prompt is drawn
and the original in-progress buffer is restored unchanged.  Attribute
candidates are analysed under Python's `dir` contract (the oracle returns
sorted, duplicate-free, dot-free attribute names). -/
theorem c9_amended :
    (∀ (buffer : String) (cursorPos : Nat) (g : Dict)
        (rd : String → Option (List String)),
        get_completions buffer cursorPos g rd = [] →
        handle_tab_completion buffer cursorPos g rd =
          { buffer := buffer, cursorPos := cursorPos, listing := none,
            promptRedrawn := false }) ∧
    (∀ (buffer : String) (cursorPos : Nat) (g : Dict)
        (rd : String → Option (List String)) (c lastWord : String),
        (∀ nm attrs, rd nm = some attrs → ∀ a ∈ attrs, ('.' : Char) ∉ a.data) →
        get_completions buffer cursorPos g rd = [c] →
        (pySplit (pyTake buffer cursorPos)).getLast? = some lastWord →
        lastWord ++ pyDrop c lastWord.length = c ∧
        handle_tab_completion buffer cursorPos g rd =
          { buffer := pyTake buffer cursorPos ++ pyDrop c lastWord.length ++
              pyDrop buffer cursorPos,
            cursorPos := cursorPos + (pyDrop c lastWord.length).length,
            listing := none, promptRedrawn := false }) ∧
    (∀ (buffer : String) (cursorPos : Nat) (g : Dict)
        (rd : String → Option (List String)),
        (∀ nm attrs, rd nm = some attrs → attrs.Sorted (· ≤ ·) ∧ attrs.Nodup) →
        2 ≤ (get_completions buffer cursorPos g rd).length →
        handle_tab_completion buffer cursorPos g rd =
          { buffer := buffer, cursorPos := buffer.length,
            listing := some ("\n" ++
              columnListing (get_completions buffer cursorPos g rd) ++ "\n"),
            promptRedrawn := true } ∧
        (get_completions buffer cursorPos g rd).Sorted (· ≤ ·) ∧
        (get_completions buffer cursorPos g rd).Nodup) := by
  refine ⟨?_, ?_, ?_⟩
  · intro buffer cursorPos g rd h
    simp [handle_tab_completion, h]
  · intro buffer cursorPos g rd c lastWord hno hc hw
    cases hdot : lastWord.data.contains '.'
    · have hmem : c ∈ get_completions buffer cursorPos g rd := by
        rw [hc]
        exact List.mem_singleton.mpr rfl
      simp only [get_completions, hw, hdot, Bool.false_eq_true, if_false] at hmem
      rw [mem_pySortedSet] at hmem
      have hpre : pyStartsWith c lastWord = true := by
        have h2 : (pyStartsWith c lastWord && !pyStartsWith c "_") = true := by
          rcases List.mem_append.mp hmem with h | h <;> exact (List.mem_filter.mp h).2
        simp only [Bool.and_eq_true] at h2
        exact h2.1
      refine ⟨pyStartsWith_append_pyDrop c lastWord hpre, ?_⟩
      have hdot' : ('.' : Char) ∉ lastWord.data := by simpa using hdot
      simp [handle_tab_completion, hc, hw, hdot, hdot']
    · simp only [get_completions, hw, hdot, if_true] at hc
      rcases hrd2 : rd (String.mk (joinSep '.' ((splitOnChar '.' lastWord.data).dropLast)))
        with _ | attrs
      · simp only [hrd2] at hc
        exact absurd hc (by simp)
      · simp only [hrd2] at hc
        rcases hf : attrs.filter
            (fun a => pyStartsWith a (String.mk ((splitOnChar '.' lastWord.data).getLastD [])))
          with _ | ⟨a, rest⟩
        · rw [hf] at hc
          exact absurd hc (by simp)
        · rw [hf] at hc
          simp only [List.map_cons, List.cons.injEq, List.map_eq_nil_iff] at hc
          obtain ⟨hcc, hrest⟩ := hc
          have hamem : a ∈ attrs.filter
              (fun a => pyStartsWith a
                (String.mk ((splitOnChar '.' lastWord.data).getLastD []))) := by
            rw [hf]
            exact List.mem_cons_self ..
          obtain ⟨hain, hfa⟩ := List.mem_filter.mp hamem
          have hnodot : ('.' : Char) ∉ a.data := hno _ attrs hrd2 a hain
          have hparts2 : 2 ≤ (splitOnChar '.' lastWord.data).length := by
            have hmem2 : ('.' : Char) ∈ lastWord.data := by simpa using hdot
            obtain ⟨s, t, hst⟩ := List.append_of_mem hmem2
            rw [hst]
            exact splitOnChar_append_two '.' s t
          obtain ⟨hcd, hlast, hsplit⟩ :=
            dot_candidate_key lastWord a c hparts2 hcc.symm hfa hnodot
          have hdroplen :
              c.data.drop lastWord.data.length =
                a.data.drop ((splitOnChar '.' lastWord.data).getLastD []).length := by
            rw [hsplit]
            exact List.drop_left ..
          have hconj1 : lastWord ++ pyDrop c lastWord.length = c := by
            apply string_data_inj
            rw [String.data_append]
            show lastWord.data ++ c.data.drop lastWord.data.length = c.data
            rw [hdroplen, ← hsplit]
          refine ⟨hconj1, ?_⟩
          have hins : pyDrop (String.mk ((splitOnChar '.' c.data).getLastD []))
                ((splitOnChar '.' lastWord.data).getLastD []).length =
              pyDrop c lastWord.length := by
            apply string_data_inj
            show ((splitOnChar '.' c.data).getLastD []).drop
                ((splitOnChar '.' lastWord.data).getLastD []).length =
              c.data.drop lastWord.data.length
            rw [hlast, hdroplen]
          simp only [List.getLastD_eq_getLast?] at hins
          have hc2 : get_completions buffer cursorPos g rd = [c] := by
            simp only [get_completions, hw, hdot, if_true, hrd2, hf]
            simp [hcc, hrest]
          have hdot2 : ('.' : Char) ∈ lastWord.data := by simpa using hdot
          simp [handle_tab_completion, hc2, hw, hdot, hdot2, hins]
  · intro buffer cursorPos g rd hrd hlen
    obtain ⟨hs, hn⟩ := get_completions_sorted_nodup buffer cursorPos g rd hrd
    refine ⟨?_, hs, hn⟩
    have h0 : (get_completions buffer cursorPos g rd).isEmpty = false := by
      rcases hg : get_completions buffer cursorPos g rd with _ | ⟨x, xs⟩
      · rw [hg] at hlen
        simp at hlen
      · rfl
    have h1 : ¬ (get_completions buffer cursorPos g rd).length = 1 := by omega
    simp [handle_tab_completion, h0, h1]

/-- Witness: `c9_amended` at three concrete requests — no candidate, one
candidate (`sy` completing to the globals key `sys`), many candidates. -/
theorem c9_amended_witness :
    handle_tab_completion "qq" 2 globals0 (fun _ => none) =
      { buffer := "qq", cursorPos := 2, listing := none, promptRedrawn := false } ∧
    ("sy" ++ pyDrop "sys" ("sy" : String).length = "sys" ∧
      handle_tab_completion "sy" 2 globals0 (fun _ => none) =
        { buffer := pyTake "sy" 2 ++ pyDrop "sys" ("sy" : String).length ++ pyDrop "sy" 2,
          cursorPos := 2 + (pyDrop "sys" ("sy" : String).length).length,
          listing := none, promptRedrawn := false }) ∧
    (handle_tab_completion "s" 1 globals0 (fun _ => none) =
        { buffer := "s", cursorPos := ("s" : String).length,
          listing := some ("\n" ++
            columnListing (get_completions "s" 1 globals0 (fun _ => none)) ++ "\n"),
          promptRedrawn := true } ∧
      (get_completions "s" 1 globals0 (fun _ => none)).Sorted (· ≤ ·) ∧
      (get_completions "s" 1 globals0 (fun _ => none)).Nodup) :=
  ⟨c9_amended.1 "qq" 2 globals0 (fun _ => none) (by decide),
    c9_amended.2.1 "sy" 2 globals0 (fun _ => none) "sys" "sy"
      (fun _ _ h => Option.noConfusion h) (by decide) (by decide),
    c9_amended.2.2 "s" 1 globals0 (fun _ => none)
      (fun _ _ h => Option.noConfusion h) (by decide)⟩

end Pycoterm

